import Mathlib

/-!
# Battesty telemetry engine — a verification development

Shallow embedding of the battery-telemetry engine of the `battesty` tray
application (`src/battery.rs`, `src/settings.rs`) and proofs about it.

Embedding conventions:
* timestamps (`chrono::DateTime<Local>`) are integer seconds (`ℤ`); the
  `num_seconds()` of a timestamp difference is then plain subtraction;
* `f64` arithmetic is embedded as exact rational arithmetic (`ℚ`); the
  claims proved here depend only on signs, on exactly representable values
  and on comparisons that rounding does not move;
* Rust's `as i32` cast of an `f64` truncates toward zero and saturates at
  the `i32` bounds; it is embedded as `i32ofRat`;
* `u8` percentages are `ℕ` (the 0–255 range is imposed where it matters);
* fallible I/O returns `Option`.
-/

namespace Battesty

/-- One battery sample: `BatteryMeasurement` of `src/battery.rs`. -/
structure Measurement where
  timestamp : ℤ
  percentage : ℕ
  is_charging : Bool
  discharge_rate : ℤ
  deriving DecidableEq

/-- Truncation toward zero of a rational, the rounding of Rust's `as i32`. -/
def truncQ (q : ℚ) : ℤ := if 0 ≤ q then ⌊q⌋ else ⌈q⌉

/-- Rust `f64 as i32`: truncate toward zero, saturating at the `i32` bounds. -/
def i32ofRat (q : ℚ) : ℤ := max (-2147483648) (min 2147483647 (truncQ q))

/-- The accumulation loop of `estimate_discharge_rate` (src/battery.rs:125-136):
walks the window newest-first; for each adjacent pair `(newer, older)` with a
strictly positive elapsed time whose newer sample is not charging it adds
`(percentage_older - percentage_newer) / elapsed * 3600` to the running total
and bumps the count. Returns (total_rate, count). -/
def rateLoop (total : ℚ) (count : ℕ) : List Measurement → ℚ × ℕ
  | newer :: older :: rest =>
    if 0 < newer.timestamp - older.timestamp ∧ newer.is_charging = false then
      rateLoop
        (total + ((older.percentage : ℚ) - (newer.percentage : ℚ)) /
          ((newer.timestamp - older.timestamp : ℤ) : ℚ) * 3600)
        (count + 1) (older :: rest)
    else
      rateLoop total count (older :: rest)
  | _ => (total, count)

/-- `estimate_discharge_rate` (src/battery.rs:115-143). The store is held
oldest-first, so the newest-first window of up to 10 samples is
`measurements.reverse.take 10`. -/
def estimate_discharge_rate (measurements : List Measurement) : ℤ :=
  if measurements.length < 2 then 0
  else
    let recent := measurements.reverse.take 10
    if recent.length < 2 then 0
    else
      let tc := rateLoop 0 0 recent
      if 0 < tc.2 then i32ofRat (tc.1 / (tc.2 : ℚ) * 100) else 0

/-- The per-pair rates of the qualifying adjacent pairs of a newest-first
window, as the specification words them: elapsed time strictly positive and
the newer sample not charging, rate `(p_older - p_newer) / elapsed * 3600`. -/
def qualifyingRates : List Measurement → List ℚ
  | newer :: older :: rest =>
    (if 0 < newer.timestamp - older.timestamp ∧ newer.is_charging = false then
      [((older.percentage : ℚ) - (newer.percentage : ℚ)) /
        ((newer.timestamp - older.timestamp : ℤ) : ℚ) * 3600]
    else []) ++ qualifyingRates (older :: rest)
  | _ => []

/-- The discharge-rate estimate as the specification words it: the average of
the qualifying pair rates over the most recent up-to-10 samples, scaled by 100
and truncated to an integer, and 0 when no pair qualifies. -/
def specDischargeRate (measurements : List Measurement) : ℤ :=
  let rates := qualifyingRates (measurements.reverse.take 10)
  if rates = [] then 0
  else i32ofRat (rates.sum / (rates.length : ℚ) * 100)

lemma rateLoop_eq_qualifyingRates (total : ℚ) (count : ℕ) (l : List Measurement) :
    rateLoop total count l =
      (total + (qualifyingRates l).sum, count + (qualifyingRates l).length) := by
  induction l generalizing total count with
  | nil => simp [rateLoop, qualifyingRates]
  | cons a t ih =>
    cases t with
    | nil => simp [rateLoop, qualifyingRates]
    | cons b rest =>
      by_cases h : 0 < a.timestamp - b.timestamp ∧ a.is_charging = false
      · rw [rateLoop, qualifyingRates, if_pos h, if_pos h, ih]
        simp only [List.singleton_append, List.sum_cons, List.length_cons, Prod.mk.injEq]
        constructor
        · ring
        · omega
      · rw [rateLoop, qualifyingRates, if_neg h, if_neg h, ih]
        simp

lemma qualifyingRates_short {l : List Measurement} (h : l.length < 2) :
    qualifyingRates l = [] := by
  match l, h with
  | [], _ => rfl
  | [_], _ => rfl

/-- The estimator of the source equals the estimator of the specification. -/
lemma estimate_eq_spec (ms : List Measurement) :
    estimate_discharge_rate ms = specDischargeRate ms := by
  unfold estimate_discharge_rate specDischargeRate
  by_cases h2 : ms.length < 2
  · have hlen : (ms.reverse.take 10).length < 2 := by
      simp [List.length_take, List.length_reverse]
      omega
    rw [qualifyingRates_short hlen]
    simp [h2]
  · have hlen : ¬ (ms.reverse.take 10).length < 2 := by
      simp [List.length_take, List.length_reverse]
      omega
    rw [if_neg h2]
    simp only [hlen, if_false, rateLoop_eq_qualifyingRates, zero_add]
    cases hq : qualifyingRates (ms.reverse.take 10) with
    | nil => simp [hq]
    | cons r rs => simp [hq]

/-- If every sample of the history is charging, no adjacent pair of the
window qualifies. -/
lemma qualifyingRates_of_all_charging {l : List Measurement}
    (h : ∀ m ∈ l, m.is_charging = true) : qualifyingRates l = [] := by
  induction l with
  | nil => rfl
  | cons a t ih =>
    cases t with
    | nil => rfl
    | cons b rest =>
      have ha : a.is_charging = true := h a (by simp)
      have hcond : ¬ (0 < a.timestamp - b.timestamp ∧ a.is_charging = false) := by
        simp [ha]
      rw [qualifyingRates, if_neg hcond]
      exact ih fun m hm => h m (by simp [hm])

/-- C1.  For every history, the discharge-rate estimate over the most
recent up-to-10 measurements (newest first) equals the average, over all
adjacent pairs whose elapsed time is strictly positive and whose newer
sample is not charging, of `(percentage_older - percentage_newer) /
elapsed_seconds * 3600`, scaled by 100 and truncated to an integer; when
zero pairs qualify — in particular when all samples are charging — the
result is 0 and no division by zero was ever performed. -/
theorem c1_discharge_rate_is_scaled_average (ms : List Measurement) :
    estimate_discharge_rate ms = specDischargeRate ms ∧
    (qualifyingRates (ms.reverse.take 10) = [] → estimate_discharge_rate ms = 0) ∧
    ((∀ m ∈ ms, m.is_charging = true) → estimate_discharge_rate ms = 0) := by
  refine ⟨estimate_eq_spec ms, ?_, ?_⟩
  · intro hq
    rw [estimate_eq_spec, specDischargeRate]
    simp [hq]
  · intro hall
    rw [estimate_eq_spec, specDischargeRate]
    have : qualifyingRates (ms.reverse.take 10) = [] := by
      refine qualifyingRates_of_all_charging fun m hm => hall m ?_
      have := List.mem_reverse.mp (List.mem_of_mem_take hm)
      exact this
    simp [this]

lemma truncQ_intCast (n : ℤ) : truncQ (n : ℚ) = n := by
  unfold truncQ
  split
  · exact Int.floor_intCast n
  · exact Int.ceil_intCast n

lemma i32ofRat_intCast (n : ℤ) (h1 : -2147483648 ≤ n) (h2 : n ≤ 2147483647) :
    i32ofRat (n : ℚ) = n := by
  unfold i32ofRat
  rw [truncQ_intCast]
  omega

lemma truncQ_nonneg {q : ℚ} (h : 0 ≤ q) : 0 ≤ truncQ q := by
  unfold truncQ
  rw [if_pos h]
  exact Int.floor_nonneg.mpr h

lemma i32ofRat_nonneg {q : ℚ} (h : 0 ≤ q) : 0 ≤ i32ofRat q := by
  have := truncQ_nonneg h
  unfold i32ofRat
  omega

/-- The battery is (strictly) discharging along a newest-first window:
every adjacent qualifying pair — strictly positive elapsed time, newer
sample not charging — shows a strictly lower percentage on the newer
sample. -/
def strictlyDischarging : List Measurement → Prop
  | newer :: older :: rest =>
    (0 < newer.timestamp - older.timestamp ∧ newer.is_charging = false →
      newer.percentage < older.percentage) ∧ strictlyDischarging (older :: rest)
  | _ => True

def strictlyDischargingDec : (l : List Measurement) → Decidable (strictlyDischarging l)
  | [] => isTrue trivial
  | [_] => isTrue trivial
  | a :: b :: rest =>
    haveI := strictlyDischargingDec (b :: rest)
    inferInstanceAs (Decidable ((0 < a.timestamp - b.timestamp ∧ a.is_charging = false →
      a.percentage < b.percentage) ∧ strictlyDischarging (b :: rest)))

instance (l : List Measurement) : Decidable (strictlyDischarging l) :=
  strictlyDischargingDec l

lemma qualifyingRates_pos {l : List Measurement} (h : strictlyDischarging l) :
    ∀ r ∈ qualifyingRates l, 0 < r := by
  induction l with
  | nil => intro r hr; simp [qualifyingRates] at hr
  | cons a t ih =>
    cases t with
    | nil => intro r hr; simp [qualifyingRates] at hr
    | cons b rest =>
      obtain ⟨h1, h2⟩ := h
      intro r hr
      by_cases hc : 0 < a.timestamp - b.timestamp ∧ a.is_charging = false
      · rw [qualifyingRates, if_pos hc, List.singleton_append, List.mem_cons] at hr
        rcases hr with rfl | hr
        · have hp : a.percentage < b.percentage := h1 hc
          have hd : (0:ℚ) < ((a.timestamp - b.timestamp : ℤ) : ℚ) := by
            exact_mod_cast hc.1
          have hn : (0:ℚ) < (b.percentage : ℚ) - (a.percentage : ℚ) := by
            have : (a.percentage : ℚ) < (b.percentage : ℚ) := by exact_mod_cast hp
            linarith
          have := div_pos hn hd
          nlinarith
        · exact ih h2 r hr
      · rw [qualifyingRates, if_neg hc, List.nil_append] at hr
        exact ih h2 r hr

/-- C2 (amended).  For every history whose 10-sample window is strictly
discharging — every adjacent qualifying pair (strictly positive elapsed
time, newer sample not charging) has a strictly lower newer percentage —
the computed discharge rate is non-negative: each qualifying pair
contributes a positive rate, so the truncated scaled average is `≥ 0`
(the `×100`-then-truncate step can still collapse a tiny average to 0). -/
theorem c2_strictly_discharging_rate_nonneg (ms : List Measurement)
    (h : strictlyDischarging (ms.reverse.take 10)) :
    0 ≤ estimate_discharge_rate ms := by
  rw [estimate_eq_spec, specDischargeRate]
  cases hq : qualifyingRates (ms.reverse.take 10) with
  | nil => simp [hq]
  | cons r rs =>
    have hpos := qualifyingRates_pos h
    rw [hq] at hpos
    rw [if_neg (by simp)]
    apply i32ofRat_nonneg
    have hsum : 0 ≤ (r :: rs).sum :=
      List.sum_nonneg fun x hx => le_of_lt (hpos x hx)
    have hlen : (0:ℚ) ≤ ((r :: rs).length : ℚ) := by positivity
    positivity

/-- C2, counterexample to the claim as stated: a two-sample history that
drops from 80% to 55% over one hour — strictly discharging, both samples
qualifying — produces the rate `+2500` (25 %/hr × 100), a positive value,
not a negative one: the source computes `percentage_older −
percentage_newer`, which is positive while discharging. -/
theorem c2_counterexample :
    strictlyDischarging
      (([⟨0, 80, false, 0⟩, ⟨3600, 55, false, 0⟩] :
        List Measurement).reverse.take 10) ∧
    estimate_discharge_rate [⟨0, 80, false, 0⟩, ⟨3600, 55, false, 0⟩] = 2500 := by
  constructor
  · decide
  · simp only [estimate_discharge_rate, rateLoop, List.reverse_cons, List.reverse_nil,
      List.nil_append, List.cons_append, List.take, List.length_cons, List.length_nil]
    norm_num
    rw [show ((2500:ℚ)) = (((2500:ℤ)):ℚ) by norm_num]
    rw [i32ofRat_intCast] <;> norm_num

/-- C2, witness for the amended theorem at the same concrete input. -/
theorem c2_strictly_discharging_rate_nonneg_witness :
    0 ≤ estimate_discharge_rate [⟨0, 80, false, 0⟩, ⟨3600, 55, false, 0⟩] :=
  c2_strictly_discharging_rate_nonneg _ (by decide)

/-- `format_time` (src/battery.rs:171-180): `"{h}h {m}m"` when the hour part
is positive, else `"{m}m"`.  Rust `i32` division truncates toward zero
(`Int.tdiv` / `Int.tmod`). -/
def format_time (minutes : ℤ) : String :=
  let hours := minutes.tdiv 60
  let mins := minutes.tmod 60
  if 0 < hours then toString hours ++ "h " ++ toString mins ++ "m"
  else toString mins ++ "m"

/-- `calculate_eta` (src/battery.rs:145-169). -/
def calculate_eta (measurements : List Measurement) (percentage : ℕ)
    (is_charging : Bool) : String :=
  if is_charging then
    let remaining : ℤ := 100 - (percentage : ℤ)
    if remaining ≤ 0 then "Fully charged"
    else
      let minutes := i32ofRat ((remaining : ℚ) / (3/2))
      format_time minutes ++ " until full"
  else
    let rate := estimate_discharge_rate measurements
    if rate ≤ 0 then "Calculating..."
    else
      let hours_remaining := (percentage : ℚ) / (rate.natAbs : ℚ) * 100
      let minutes := i32ofRat (hours_remaining * 60)
      if minutes < 1 then "< 1 min" else format_time minutes

lemma calculate_eta_charging_full {ms : List Measurement} {p : ℕ} (h : 100 ≤ p) :
    calculate_eta ms p true = "Fully charged" := by
  unfold calculate_eta
  rw [if_pos rfl, if_pos (by omega : (100:ℤ) - (p : ℤ) ≤ 0)]

lemma calculate_eta_charging_ltfull {ms : List Measurement} {p : ℕ} (h : p < 100) :
    calculate_eta ms p true =
      format_time (i32ofRat ((100 - (p : ℚ)) / (3/2))) ++ " until full" := by
  unfold calculate_eta
  rw [if_pos rfl, if_neg (by omega : ¬ (100:ℤ) - (p : ℤ) ≤ 0)]
  have hc : (((100 - (p : ℤ) : ℤ)) : ℚ) = 100 - (p : ℚ) := by push_cast; ring
  rw [hc]

lemma calculate_eta_calculating {ms : List Measurement} {p : ℕ}
    (h : estimate_discharge_rate ms ≤ 0) :
    calculate_eta ms p false = "Calculating..." := by
  unfold calculate_eta
  rw [if_neg (by simp), if_pos h]

lemma calculate_eta_discharging {ms : List Measurement} {p : ℕ}
    (h : 0 < estimate_discharge_rate ms) :
    calculate_eta ms p false =
      (if i32ofRat ((p : ℚ) / ((estimate_discharge_rate ms : ℚ) / 100) * 60) < 1
       then "< 1 min"
       else format_time
         (i32ofRat ((p : ℚ) / ((estimate_discharge_rate ms : ℚ) / 100) * 60))) := by
  have hq : (0:ℚ) < (estimate_discharge_rate ms : ℚ) := by exact_mod_cast h
  have hn : (((estimate_discharge_rate ms).natAbs : ℕ) : ℚ) =
      (estimate_discharge_rate ms : ℚ) := by
    rw [Int.cast_natAbs]
    exact_mod_cast abs_of_pos h
  have harg : (p : ℚ) / (((estimate_discharge_rate ms).natAbs : ℕ) : ℚ) * 100 * 60 =
      (p : ℚ) / ((estimate_discharge_rate ms : ℚ) / 100) * 60 := by
    rw [hn]
    field_simp
  simp only [calculate_eta]
  rw [if_neg Bool.false_ne_true, if_neg (not_le.mpr h), harg]

/-- C3, counterexample to the claim as stated: a history whose percentage
rises from 50% to 55% over one hour (on battery) yields exactly the rate
`-500` the claim's concrete example posits; with `percentage = 50` the
discharging ETA is then the "calculating" status — by the claim's own
general rule for non-positive rates — and not the claimed 600-minute
`"10h 0m"` duration.  (A rate of `-500` is impossible while discharging:
the source's rate is positive then, see C2.) -/
theorem c3_counterexample :
    estimate_discharge_rate [⟨0, 50, false, 0⟩, ⟨3600, 55, false, 0⟩] = -500 ∧
    calculate_eta [⟨0, 50, false, 0⟩, ⟨3600, 55, false, 0⟩] 50 false =
      "Calculating..." ∧
    calculate_eta [⟨0, 50, false, 0⟩, ⟨3600, 55, false, 0⟩] 50 false ≠
      "10h 0m" := by
  have hrate : estimate_discharge_rate [⟨0, 50, false, 0⟩, ⟨3600, 55, false, 0⟩]
      = -500 := by
    simp only [estimate_discharge_rate, rateLoop, List.reverse_cons, List.reverse_nil,
      List.nil_append, List.cons_append, List.take, List.length_cons, List.length_nil]
    norm_num
    rw [show ((-500:ℚ)) = (((-500:ℤ)):ℚ) by norm_num]
    rw [i32ofRat_intCast] <;> norm_num
  have heta := @calculate_eta_calculating [⟨0, 50, false, 0⟩, ⟨3600, 55, false, 0⟩]
    50 (by rw [hrate]; norm_num)
  refine ⟨hrate, heta, ?_⟩
  rw [heta]
  decide

/-- C3 (amended).  For the discharging ETA: a non-positive discharge rate
yields the "calculating" status; a positive rate yields
`minutes = (percentage / (rate/100)) × 60` truncated, with results under
one minute collapsing to the "under a minute" status; the claim's concrete
example holds with the sign corrected: a history discharging 5%/hr (rate
`+500`) with `percentage = 50` gives a 600-minute duration, `"10h 0m"`. -/
theorem c3_discharging_eta (ms : List Measurement) (p : ℕ) :
    (estimate_discharge_rate ms ≤ 0 → calculate_eta ms p false = "Calculating...") ∧
    (0 < estimate_discharge_rate ms →
      calculate_eta ms p false =
        (if i32ofRat ((p : ℚ) / ((estimate_discharge_rate ms : ℚ) / 100) * 60) < 1
         then "< 1 min"
         else format_time
           (i32ofRat ((p : ℚ) / ((estimate_discharge_rate ms : ℚ) / 100) * 60)))) ∧
    calculate_eta [⟨0, 55, false, 0⟩, ⟨3600, 50, false, 0⟩] 50 false = "10h 0m" := by
  refine ⟨fun h => calculate_eta_calculating h, fun h => calculate_eta_discharging h, ?_⟩
  have hrate : estimate_discharge_rate [⟨0, 55, false, 0⟩, ⟨3600, 50, false, 0⟩]
      = 500 := by
    simp only [estimate_discharge_rate, rateLoop, List.reverse_cons, List.reverse_nil,
      List.nil_append, List.cons_append, List.take, List.length_cons, List.length_nil]
    norm_num
    rw [show ((500:ℚ)) = (((500:ℤ)):ℚ) by norm_num]
    rw [i32ofRat_intCast] <;> norm_num
  rw [calculate_eta_discharging (by rw [hrate]; norm_num), hrate]
  have h600 : i32ofRat (((50:ℕ) : ℚ) / (((500:ℤ) : ℚ) / 100) * 60) = 600 := by
    rw [show (((50:ℕ) : ℚ) / (((500:ℤ) : ℚ) / 100) * 60) = (((600:ℤ)):ℚ) by
      push_cast; norm_num]
    rw [i32ofRat_intCast] <;> norm_num
  rw [h600]
  decide

/-- C4.  For the charging ETA: `percentage ≥ 100` yields the "fully
charged" status instead of a duration; otherwise
`minutes = (100 − percentage) / 1.5` truncated, with the fixed constant
1.5 and no dependence on the history; at `percentage = 40` the minute
count is exactly 40, rendered `"40m"` by the duration formatter (the full
ETA string is `"40m until full"`). -/
theorem c4_charging_eta (ms : List Measurement) (p : ℕ) :
    (100 ≤ p → calculate_eta ms p true = "Fully charged") ∧
    (p < 100 →
      calculate_eta ms p true =
        format_time (i32ofRat ((100 - (p : ℚ)) / (3/2))) ++ " until full") ∧
    i32ofRat ((100 - (40 : ℚ)) / (3/2)) = 40 ∧
    format_time 40 = "40m" ∧
    calculate_eta ms 40 true = "40m until full" := by
  have h40 : i32ofRat ((100 - (40 : ℚ)) / (3/2)) = 40 := by
    rw [show ((100:ℚ) - 40) / (3/2) = (((40:ℤ)):ℚ) by norm_num]
    rw [i32ofRat_intCast] <;> norm_num
  refine ⟨fun h => calculate_eta_charging_full h,
    fun h => calculate_eta_charging_ltfull h, h40, by decide, ?_⟩
  rw [calculate_eta_charging_ltfull (by norm_num)]
  rw [show ((100:ℚ) - ((40:ℕ) : ℚ)) / (3/2) = (((40:ℤ)):ℚ) by push_cast; norm_num]
  rw [i32ofRat_intCast] <;> decide

/-- C10.  The charging branch of the ETA never produces the "under a
minute" status — the under-1-minute collapse exists only on the
discharging branch — and at `percentage = 99` the truncated minute count
`(100 − 99) / 1.5 = 0` is rendered by the plain duration formatter as
`"0m until full"`. -/
theorem c10_charging_no_under_a_minute (ms : List Measurement) (p : ℕ) :
    calculate_eta ms p true ≠ "< 1 min" ∧
    calculate_eta ms 99 true = "0m until full" := by
  constructor
  · by_cases hp : 100 ≤ p
    · rw [calculate_eta_charging_full hp]
      decide
    · rw [calculate_eta_charging_ltfull (by omega)]
      intro heq
      have hlen := congrArg String.length heq
      rw [String.length_append] at hlen
      have h11 : (" until full").length = 11 := by decide
      have h7 : ("< 1 min").length = 7 := by decide
      omega
  · have h0 : i32ofRat ((100 - ((99:ℕ) : ℚ)) / (3/2)) = 0 := by
      rw [show ((100:ℚ) - ((99:ℕ) : ℚ)) / (3/2) = (2:ℚ)/3 by push_cast; norm_num]
      unfold i32ofRat truncQ
      rw [if_pos (by norm_num)]
      rw [show ⌊(2:ℚ)/3⌋ = 0 by norm_num]
      norm_num
    rw [calculate_eta_charging_ltfull (by norm_num), h0]
    decide

/-- `AppSettings` (src/settings.rs:3-18). -/
structure AppSettings where
  update_interval_ms : ℕ
  history_retention_hours : ℕ
  show_percentage_on_icon : Bool
  deriving DecidableEq

/-- The `Default` impl of `AppSettings` (src/settings.rs:10-18). -/
def AppSettings.default : AppSettings :=
  { update_interval_ms := 30000, history_retention_hours := 168,
    show_percentage_on_icon := true }

/-- A stored settings file, seen as the JSON object serde reads from it:
each of the three fields either present or absent.  (Unreadable or
unparsable files are the `none` argument of `AppSettings.load`.) -/
structure StoredSettings where
  update_interval_ms : Option ℕ
  history_retention_hours : Option ℕ
  show_percentage_on_icon : Option Bool
  deriving DecidableEq

/-- The derived `Deserialize` impl of `AppSettings`: the struct carries no
`#[serde(default)]`, so serde_json requires every field and a file missing
any of them fails to parse as a whole. -/
def parseSettings (f : StoredSettings) : Option AppSettings :=
  match f.update_interval_ms, f.history_retention_hours, f.show_percentage_on_icon with
  | some u, some h, some s =>
    some { update_interval_ms := u, history_retention_hours := h,
           show_percentage_on_icon := s }
  | _, _, _ => none

/-- `AppSettings::load` (src/settings.rs:20-27): read the config file, parse
it, and on any failure fall back to `Default::default()` as a whole
(`.ok().and_then(..).unwrap_or_default()`). -/
def AppSettings.load (file : Option StoredSettings) : AppSettings :=
  (file.bind parseSettings).getD AppSettings.default

/-- C5, counterexample to the claim as stated: a stored file holding only
`update_interval_ms = 5000` is missing required fields, so the derived
deserializer rejects the whole file and `load` falls back to the full
defaults — the loaded `update_interval_ms` is 30000, not the stored
5000. -/
theorem c5_counterexample :
    AppSettings.load (some ⟨some 5000, none, none⟩) = AppSettings.default ∧
    (AppSettings.load (some ⟨some 5000, none, none⟩)).update_interval_ms ≠ 5000 := by
  decide

/-- C5 (amended).  Settings load never fails: a stored file that does not
parse as a complete record — in particular a partial file holding only
`update_interval_ms = 5000` — yields the wholesale defaults
`(update_interval_ms = 30000, history_retention_hours = 168,
show_percentage_on_icon = true)`; missing fields are not merged
field-by-field with the stored values. -/
theorem c5_partial_settings_default (f : StoredSettings) :
    (parseSettings f = none → AppSettings.load (some f) = AppSettings.default) ∧
    AppSettings.load none = AppSettings.default ∧
    AppSettings.load (some ⟨some 5000, none, none⟩) =
      { update_interval_ms := 30000, history_retention_hours := 168,
        show_percentage_on_icon := true } := by
  refine ⟨fun h => ?_, rfl, by decide⟩
  simp [AppSettings.load, h]

/-- The head-eviction loop of `cleanup_old_measurements`
(src/battery.rs:59-65): pop from the front while the front is older than
the cutoff; stop at the first non-expired entry. -/
def dropExpired (cutoff : ℤ) : List Measurement → List Measurement
  | [] => []
  | m :: rest => if m.timestamp < cutoff then dropExpired cutoff rest else m :: rest

/-- `cleanup_old_measurements` (src/battery.rs:57-66):
`cutoff = now − retention_hours`, in seconds. -/
def cleanup_old_measurements (now : ℤ) (retention_hours : ℕ)
    (measurements : List Measurement) : List Measurement :=
  dropExpired (now - 3600 * retention_hours) measurements

/-- The store invariant: ordered by timestamp, oldest first. -/
def sortedByTime : List Measurement → Bool
  | a :: b :: rest => decide (a.timestamp ≤ b.timestamp) && sortedByTime (b :: rest)
  | _ => true

lemma sortedByTime_head_le {a : Measurement} {l : List Measurement}
    (h : sortedByTime (a :: l) = true) : ∀ x ∈ l, a.timestamp ≤ x.timestamp := by
  induction l generalizing a with
  | nil => intro x hx; simp at hx
  | cons b rest ih =>
    intro x hx
    rw [sortedByTime, Bool.and_eq_true, decide_eq_true_eq] at h
    rcases List.mem_cons.mp hx with rfl | hx
    · exact h.1
    · exact le_trans h.1 (ih h.2 x hx)

lemma sortedByTime_tail {a : Measurement} {l : List Measurement}
    (h : sortedByTime (a :: l) = true) : sortedByTime l = true := by
  cases l with
  | nil => rfl
  | cons b rest =>
    rw [sortedByTime, Bool.and_eq_true] at h
    exact h.2

lemma dropExpired_all_ge {cutoff : ℤ} {l : List Measurement}
    (hs : sortedByTime l = true) :
    ∀ m ∈ dropExpired cutoff l, cutoff ≤ m.timestamp := by
  induction l with
  | nil => intro m hm; simp [dropExpired] at hm
  | cons a rest ih =>
    intro m hm
    by_cases h : a.timestamp < cutoff
    · rw [dropExpired, if_pos h] at hm
      exact ih (sortedByTime_tail hs) m hm
    · rw [dropExpired, if_neg h] at hm
      rcases List.mem_cons.mp hm with rfl | hm
      · omega
      · have := sortedByTime_head_le hs m hm
        omega

lemma mem_dropExpired {cutoff : ℤ} {l : List Measurement} :
    ∀ m ∈ l, cutoff ≤ m.timestamp → m ∈ dropExpired cutoff l := by
  induction l with
  | nil => intro m hm; simp at hm
  | cons a rest ih =>
    intro m hm hc
    by_cases h : a.timestamp < cutoff
    · rw [dropExpired, if_pos h]
      rcases List.mem_cons.mp hm with rfl | hm
      · exact absurd hc (not_le.mpr h)
      · exact ih m hm hc
    · rw [dropExpired, if_neg h]
      exact hm

/-- C6, counterexample to the claim as stated (over *every* history): the
eviction scan stops at the first non-expired head, so on a history that is
not time-ordered an expired entry hidden behind a fresh head survives:
with `now = 7300` and a 1-hour horizon (cutoff 3700), the store
`[{t=3800}, {t=0}]` keeps the `t = 0` entry although it is older than the
horizon. -/
theorem c6_counterexample :
    (⟨0, 50, false, 0⟩ : Measurement) ∈
      cleanup_old_measurements 7300 1 [⟨3800, 50, false, 0⟩, ⟨0, 50, false, 0⟩] ∧
    (⟨0, 50, false, 0⟩ : Measurement).timestamp < 7300 - 3600 * ((1:ℕ) : ℤ) := by
  decide

/-- C6 (amended).  For every retention horizon and every history sorted by
timestamp (oldest first — the store invariant), after eviction no
remaining measurement is older than `now − horizon`, and every measurement
at or inside the horizon survives (the second part needs no sortedness:
the loop only ever removes expired heads). -/
theorem c6_evict_horizon (now : ℤ) (H : ℕ) (ms : List Measurement)
    (hs : sortedByTime ms = true) :
    (∀ m ∈ cleanup_old_measurements now H ms, now - 3600 * (H : ℤ) ≤ m.timestamp) ∧
    (∀ m ∈ ms, now - 3600 * (H : ℤ) ≤ m.timestamp →
      m ∈ cleanup_old_measurements now H ms) :=
  ⟨dropExpired_all_ge hs, fun m hm hc => mem_dropExpired m hm hc⟩

/-- C6, witness for the amended theorem on a sorted two-entry store. -/
theorem c6_evict_horizon_witness :
    (⟨7200, 80, false, 0⟩ : Measurement) ∈
      cleanup_old_measurements 7300 1 [⟨0, 90, false, 0⟩, ⟨7200, 80, false, 0⟩] :=
  (c6_evict_horizon 7300 1 [⟨0, 90, false, 0⟩, ⟨7200, 80, false, 0⟩] (by decide)).2
    ⟨7200, 80, false, 0⟩ (by decide) (by decide)

/-- `calculate_annual_degradation` (src/battery.rs:182-197). -/
def calculate_annual_degradation (measurements : List Measurement) : ℚ :=
  if measurements.length < 100 then 0
  else
    let full_charges := measurements.filter fun m => m.percentage == 100
    if full_charges.length < 2 then 0 else 5/2

/-- C9.  The annual-degradation estimate is exactly 0 when the store holds
fewer than 100 measurements or fewer than 2 full-charge (100%)
measurements, exactly 2.5 when it holds at least 100 measurements and at
least 2 full-charge measurements, and never any other value. -/
theorem c9_degradation_constant (ms : List Measurement) :
    ((ms.length < 100 ∨ (ms.filter fun m => m.percentage == 100).length < 2) →
      calculate_annual_degradation ms = 0) ∧
    (100 ≤ ms.length ∧ 2 ≤ (ms.filter fun m => m.percentage == 100).length →
      calculate_annual_degradation ms = 5/2) ∧
    (calculate_annual_degradation ms = 0 ∨ calculate_annual_degradation ms = 5/2) := by
  simp only [calculate_annual_degradation]
  by_cases h1 : ms.length < 100
  · rw [if_pos h1]
    exact ⟨fun _ => rfl, fun hc => absurd h1 (Nat.not_lt.mpr hc.1), Or.inl rfl⟩
  · rw [if_neg h1]
    by_cases h2 : (ms.filter fun m => m.percentage == 100).length < 2
    · rw [if_pos h2]
      exact ⟨fun _ => rfl, fun hc => absurd h2 (Nat.not_lt.mpr hc.2), Or.inl rfl⟩
    · rw [if_neg h2]
      refine ⟨fun hc => ?_, fun _ => rfl, Or.inr rfl⟩
      rcases hc with hc | hc
      · exact absurd hc h1
      · exact absurd hc h2

/-- The monitor state the engine's sampling path touches: the store and
the settings (src/battery.rs:17-23; the tray-icon handle and the debug
fields are presentation state no claim involves). -/
structure BatteryMonitor where
  measurements : List Measurement
  settings : AppSettings

/-- The success path of `get_battery_status` (src/battery.rs:89-113), with
`DEBUG_MODE = false` and the Win32 power query answering `percentage` and
`is_charging` at time `now`: build the measurement with the rate estimated
over the store as it was, append it, run eviction when the new length is a
multiple of 100, and return `(percentage, eta, is_charging)` with the ETA
computed over the updated store. -/
def get_battery_status (mon : BatteryMonitor) (now : ℤ) (percentage : ℕ)
    (is_charging : Bool) : BatteryMonitor × ℕ × String × Bool :=
  let measurement : Measurement :=
    { timestamp := now, percentage := percentage, is_charging := is_charging,
      discharge_rate := estimate_discharge_rate mon.measurements }
  let appended := mon.measurements ++ [measurement]
  let stored := if appended.length % 100 = 0 then
      cleanup_old_measurements now mon.settings.history_retention_hours appended
    else appended
  ({ mon with measurements := stored },
    percentage, calculate_eta stored percentage is_charging, is_charging)

/-- C7.  On a successful sample: the newly built measurement carries the
discharge rate estimated over the store *before* the append (it is
excluded from its own rate) and is present in the updated store; the
returned ETA text is the ETA of the *post-append* (and, when triggered,
post-eviction) store; an append that makes the store length a multiple of
100 triggers eviction, and one that does not leaves the store as the plain
append; the returned tuple carries the sampled percentage and charging
flag. -/
theorem c7_sample_ordering (mon : BatteryMonitor) (now : ℤ) (p : ℕ) (c : Bool) :
    (⟨now, p, c, estimate_discharge_rate mon.measurements⟩ : Measurement) ∈
      (get_battery_status mon now p c).1.measurements ∧
    (get_battery_status mon now p c).2.2.1 =
      calculate_eta (get_battery_status mon now p c).1.measurements p c ∧
    ((mon.measurements ++
        [(⟨now, p, c, estimate_discharge_rate mon.measurements⟩ : Measurement)]).length
          % 100 = 0 →
      (get_battery_status mon now p c).1.measurements =
        cleanup_old_measurements now mon.settings.history_retention_hours
          (mon.measurements ++
            [(⟨now, p, c, estimate_discharge_rate mon.measurements⟩ : Measurement)])) ∧
    ((mon.measurements ++
        [(⟨now, p, c, estimate_discharge_rate mon.measurements⟩ : Measurement)]).length
          % 100 ≠ 0 →
      (get_battery_status mon now p c).1.measurements =
        mon.measurements ++
          [(⟨now, p, c, estimate_discharge_rate mon.measurements⟩ : Measurement)]) ∧
    (get_battery_status mon now p c).2.1 = p ∧
    (get_battery_status mon now p c).2.2.2 = c := by
  have hmem : (⟨now, p, c, estimate_discharge_rate mon.measurements⟩ : Measurement) ∈
      mon.measurements ++ [(⟨now, p, c, estimate_discharge_rate mon.measurements⟩ :
        Measurement)] :=
    List.mem_append_right _ (List.mem_singleton.mpr rfl)
  have hif : (get_battery_status mon now p c).1.measurements =
      (if (mon.measurements ++ [(⟨now, p, c, estimate_discharge_rate mon.measurements⟩ :
            Measurement)]).length % 100 = 0
       then cleanup_old_measurements now mon.settings.history_retention_hours
         (mon.measurements ++ [(⟨now, p, c, estimate_discharge_rate mon.measurements⟩ :
           Measurement)])
       else mon.measurements ++ [(⟨now, p, c,
         estimate_discharge_rate mon.measurements⟩ : Measurement)]) := rfl
  refine ⟨?_, rfl, fun hc => ?_, fun hc => ?_, rfl, rfl⟩
  · rw [hif]
    by_cases h : (mon.measurements ++
        [(⟨now, p, c, estimate_discharge_rate mon.measurements⟩ : Measurement)]).length
          % 100 = 0
    · rw [if_pos h]
      have hcut : now - 3600 * (mon.settings.history_retention_hours : ℤ) ≤
          (⟨now, p, c, estimate_discharge_rate mon.measurements⟩ :
            Measurement).timestamp := by
        show now - 3600 * (mon.settings.history_retention_hours : ℤ) ≤ now
        omega
      exact mem_dropExpired _ hmem hcut
    · rw [if_neg h]
      exact hmem
  · rw [hif, if_pos hc]
  · rw [hif, if_neg hc]

/-- A JSON value, as far as the history snapshot needs: integer numbers
(timestamps are integer seconds in this embedding), booleans, arrays and
objects. -/
inductive Json where
  | num : ℤ → Json
  | bool : Bool → Json
  | arr : List Json → Json
  | obj : List (String × Json) → Json

/-- serde serialization of one `BatteryMeasurement`: an object with the
four fields. -/
def encodeMeasurement (m : Measurement) : Json :=
  .obj [("timestamp", .num m.timestamp), ("percentage", .num (m.percentage : ℤ)),
        ("is_charging", .bool m.is_charging), ("discharge_rate", .num m.discharge_rate)]

/-- serde deserialization of one `BatteryMeasurement`: the four fields are
looked up by name and the `u8` range of `percentage` is enforced. -/
def decodeMeasurement (j : Json) : Option Measurement :=
  match j with
  | .obj fields =>
    match fields.lookup "timestamp", fields.lookup "percentage",
        fields.lookup "is_charging", fields.lookup "discharge_rate" with
    | some (.num t), some (.num p), some (.bool c), some (.num r) =>
      if 0 ≤ p ∧ p ≤ 255 then some ⟨t, p.toNat, c, r⟩ else none
    | _, _, _, _ => none
  | _ => none

/-- Element-wise decoding of the stored array, failing as a whole when any
element fails. -/
def decodeMeasurements : List Json → Option (List Measurement)
  | [] => some []
  | j :: rest =>
    match decodeMeasurement j, decodeMeasurements rest with
    | some m, some ms => some (m :: ms)
    | _, _ => none

/-- `save_history` (src/battery.rs:47-55): the JSON snapshot written for
the store. -/
def save_history (measurements : List Measurement) : Json :=
  .arr (measurements.map encodeMeasurement)

/-- `load_history` (src/battery.rs:36-45): parse the snapshot when one is
present and fall back to the empty store on any failure. -/
def load_history (file : Option Json) : List Measurement :=
  match file with
  | some (.arr js) => (decodeMeasurements js).getD []
  | _ => []

lemma decode_encode (m : Measurement) (hb : m.percentage ≤ 255) :
    decodeMeasurement (encodeMeasurement m) = some m := by
  obtain ⟨t, p, c, r⟩ := m
  simp only [encodeMeasurement, decodeMeasurement, List.lookup]
  simp only [show (("timestamp" == "timestamp") : Bool) = true from rfl,
    show (("percentage" == "timestamp") : Bool) = false from rfl,
    show (("percentage" == "percentage") : Bool) = true from rfl,
    show (("is_charging" == "timestamp") : Bool) = false from rfl,
    show (("is_charging" == "percentage") : Bool) = false from rfl,
    show (("is_charging" == "is_charging") : Bool) = true from rfl,
    show (("discharge_rate" == "timestamp") : Bool) = false from rfl,
    show (("discharge_rate" == "percentage") : Bool) = false from rfl,
    show (("discharge_rate" == "is_charging") : Bool) = false from rfl,
    show (("discharge_rate" == "discharge_rate") : Bool) = true from rfl]
  have hb2 : p ≤ 255 := hb
  rw [if_pos (by constructor <;> omega)]
  simp

lemma decodeMeasurements_map_encode (l : List Measurement)
    (hb : ∀ m ∈ l, m.percentage ≤ 255) :
    decodeMeasurements (l.map encodeMeasurement) = some l := by
  induction l with
  | nil => rfl
  | cons m rest ih =>
    rw [List.map_cons, decodeMeasurements,
      decode_encode m (hb m (List.mem_cons_self m rest)),
      ih fun x hx => hb x (List.mem_cons_of_mem m hx)]

/-- C8.  For every non-empty store of in-range (`u8`) percentages, saving
the snapshot and loading it back reproduces an equal sequence of
measurements: same length, same order, identical `timestamp`,
`percentage`, `is_charging` and `discharge_rate` values. -/
theorem c8_save_load_roundtrip (store : List Measurement) (_hne : store ≠ [])
    (hb : ∀ m ∈ store, m.percentage ≤ 255) :
    load_history (some (save_history store)) = store := by
  show (decodeMeasurements (store.map encodeMeasurement)).getD [] = store
  rw [decodeMeasurements_map_encode store hb]
  rfl

/-- C8, witness at a one-entry store. -/
theorem c8_save_load_roundtrip_witness :
    load_history (some (save_history [⟨0, 90, false, -250⟩])) =
      [⟨0, 90, false, -250⟩] :=
  c8_save_load_roundtrip [⟨0, 90, false, -250⟩] (by decide) (by decide)

end Battesty
